import Mathlib

/-!
Verification of the CPU-scheduling simulator in `src/main.go`
(package `main`: `FCFSSchedule`, `SJFSchedule`, `SJFPrioritySchedule`,
`RRSchedule`, `loadProcesses`).

The Go code is embedded shallowly: every scheduler is a pure Lean function
over a list of `Process` records, mirroring the Go statements line by line.
Go `int64` arithmetic is modelled with `Int`; two's-complement wraparound at
2^63 is not modelled, since no claim under consideration depends on
wraparound.  The table rows that the Go code renders as strings are modelled
numerically (the strings are just decimal renderings of these values).
Writers (`io.Writer`) and the tablewriter rendering are outside the core and
are not modelled.
-/

/-- Go struct `Process` (src/main.go, lines 63-74).  The four public fields
come from the CSV loader; the five lower-case fields are the private
simulation state, zero-initialised exactly as in Go. -/
structure Process where
  ProcessID     : Int
  ArrivalTime   : Int
  BurstDuration : Int
  Priority      : Int
  startingTime  : Int  := 0
  isDone        : Bool := false
  hasMultiple   : Bool := false
  totalWait     : Int  := 0
  stoppingTime  : Int  := 0
deriving Repr, DecidableEq

/-- Go struct `TimeSlice` (src/main.go, lines 75-79). -/
structure TimeSlice where
  PID   : Int
  Start : Int
  Stop  : Int
deriving Repr, DecidableEq

/-- One row of the schedule table (src/main.go `outputSchedule` columns
ID, Priority, Burst, Arrival, Wait, Turnaround, Exit), modelled numerically. -/
structure Row where
  pid        : Int
  priority   : Int
  burst      : Int
  arrival    : Int
  wait       : Int
  turnaround : Int
  completion : Int
deriving Repr, DecidableEq

/-- A process as produced by `loadProcesses`: public fields set, private
simulation fields zero (Go zero value). -/
def mkP (id arrival burst priority : Int) : Process :=
  { ProcessID := id, ArrivalTime := arrival, BurstDuration := burst,
    Priority := priority }

def dP : Process := mkP 0 0 0 0

def dT : TimeSlice := ⟨0, 0, 0⟩

def dR : Row := ⟨0, 0, 0, 0, 0, 0, 0⟩

/-- Go `append(l[:k], append([]Process{a}, l[k:]...)...)`: insertion of `a`
at position `k`.  (In the reachable states below `k ≤ l.length` always
holds, where this agrees with the Go expression.) -/
def insertAt (l : List α) (k : Nat) (a : α) : List α :=
  l.take k ++ a :: l.drop k

/-- Stable insertion of `a` into `l` under the strict comparator `less`:
`a` passes over exactly the elements strictly less than it, so elements
comparing equal keep their original relative order.  Together with
`sortStable` this computes the (unique) result of Go `sort.SliceStable`. -/
def insertLess (less : α → α → Bool) (a : α) : List α → List α
  | [] => [a]
  | b :: bs => if less b a then b :: insertLess less a bs else a :: b :: bs

/-- Stable sort by the strict comparator `less` (Go `sort.SliceStable`). -/
def sortStable (less : α → α → Bool) : List α → List α
  | [] => []
  | a :: as => insertLess less a (sortStable less as)

/-! ## FCFSSchedule (src/main.go, lines 88-138)

The Go loop keeps `serviceTime` (cumulative burst) and `waitingTime`
across iterations; `waitingTime` is only reassigned when
`ArrivalTime > 0`, so a later process with arrival 0 reuses the stale
value.  `start = waitingTime + ArrivalTime`; the gantt `Stop` is the
updated `serviceTime`; the table's completion column is
`BurstDuration + ArrivalTime + waitingTime`.  The input slice is never
written to. -/
def FCFSrun (serviceTime waitingTime : Int) : List Process → List Row × List TimeSlice
  | [] => ([], [])
  | p :: ps =>
    let wt := if p.ArrivalTime > 0 then serviceTime - p.ArrivalTime else waitingTime
    let turnaround := p.BurstDuration + wt
    let completion := p.BurstDuration + p.ArrivalTime + wt
    let serviceTime2 := serviceTime + p.BurstDuration
    let row : Row := ⟨p.ProcessID, p.Priority, p.BurstDuration, p.ArrivalTime,
                      wt, turnaround, completion⟩
    let slice : TimeSlice := ⟨p.ProcessID, wt + p.ArrivalTime, serviceTime2⟩
    let rest := FCFSrun serviceTime2 wt ps
    (row :: rest.1, slice :: rest.2)

structure FCFSResult where
  caller : List Process
  rows   : List Row
  gantt  : List TimeSlice
deriving Repr, DecidableEq

/-- `FCFSSchedule` (src/main.go, lines 88-138).  `caller` is the content of
the caller's slice after the call: the function only reads `processes`. -/
def FCFSSchedule (processes : List Process) : FCFSResult :=
  let r := FCFSrun 0 0 processes
  { caller := processes, rows := r.1, gantt := r.2 }

/-! ## SJFSchedule (src/main.go, lines 322-443) -/

/-- The comparator of the `sort.SliceStable` call in `SJFSchedule`
(lines 336-341): by arrival time, ties by burst duration. -/
def sjfLess (a b : Process) : Bool :=
  if a.ArrivalTime = b.ArrivalTime then a.BurstDuration < b.BurstDuration
  else decide (a.ArrivalTime < b.ArrivalTime)

def sortSJF : List Process → List Process := sortStable sjfLess

/-- State of the first loop of `SJFSchedule` (lines 344-397): the working
array `copyProc`, the growing `readyQueue`, and the scalars `serviceTime`
and `currBurst` (the latter is declared outside the loop and never reset). -/
structure SJFState where
  copyProc    : List Process
  readyQueue  : List Process
  serviceTime : Int
  currBurst   : Int
deriving Repr

/-- The body of the third branch's inner loop (lines 385-395): one pass
over index `j` of the ready queue as it was when the loop started
(Go `range` fixes the length; appended entries are not visited, and
entries below the old length are unchanged by the appends). -/
def sjfBranch3Step (i : Nat) (s : SJFState) (j : Nat) : SJFState :=
  let q := s.readyQueue.getD j dP
  let c := s.copyProc.getD i dP
  if q.ProcessID = c.ProcessID ∧ q.isDone = false then
    let c2 := { c with startingTime := s.serviceTime,
                       stoppingTime := s.serviceTime + c.BurstDuration,
                       totalWait    := c.BurstDuration,
                       isDone       := true }
    -- Go order: startingTime, stoppingTime, then
    -- totalWait = stoppingTime - startingTime = BurstDuration.
    { s with copyProc    := s.copyProc.set i c2,
             readyQueue  := s.readyQueue ++ [c2],
             serviceTime := s.serviceTime + c2.BurstDuration }
  else s

/-- One iteration (index `i`) of the first loop of `SJFSchedule`
(lines 344-397). -/
def sjfStep (s : SJFState) (i : Nat) : SJFState :=
  let c := s.copyProc.getD i dP
  if c.ArrivalTime = 0 ∧ c.isDone = false then
    -- lines 345-352
    let c2 := { c with totalWait := 0, startingTime := c.ArrivalTime,
                       stoppingTime := c.BurstDuration, isDone := true }
    { s with copyProc    := s.copyProc.set i c2,
             readyQueue  := s.readyQueue ++ [c2],
             serviceTime := s.serviceTime + c2.BurstDuration }
  else if i + 1 < s.copyProc.length ∧
          (s.copyProc.getD (i+1) dP).BurstDuration < c.BurstDuration then
    -- lines 353-383
    let nxt := s.copyProc.getD (i+1) dP
    if c.ArrivalTime < nxt.ArrivalTime then
      -- the tick loop `for j := serviceTime; j < next.ArrivalTime; j++`
      let cb := s.currBurst + max 0 (nxt.ArrivalTime - s.serviceTime)
      let remBurst := c.BurstDuration
      let tw := s.serviceTime - c.ArrivalTime
      let c1 := { c with BurstDuration := cb, totalWait := tw,
                         startingTime := s.serviceTime,
                         stoppingTime := cb + c.ArrivalTime + tw,
                         isDone := false }
      let st1 := s.serviceTime + cb
      let c2 := { c1 with BurstDuration := remBurst - cb }
      -- swap copyProc[i] and copyProc[i+1], then finish the next process
      let d := { nxt with totalWait := st1 - nxt.ArrivalTime,
                          startingTime := st1,
                          stoppingTime := st1 + nxt.BurstDuration +
                                          (st1 - nxt.ArrivalTime),
                          isDone := true }
      { copyProc    := ((s.copyProc.set i d).set (i+1) c2),
        readyQueue  := s.readyQueue ++ [c1] ++ [d],
        serviceTime := st1 + nxt.BurstDuration,
        currBurst   := cb }
    else s
  else if c.isDone = false then
    (List.range s.readyQueue.length).foldl (sjfBranch3Step i) s
  else s

/-- The second loop of `SJFSchedule` (lines 399-433): one table row and one
gantt slice per ready-queue entry, in order.  (The `totalWait` /
`totalTurnaround` accumulators feed only the rendered averages.) -/
def sjfRow (e : Process) : Row :=
  ⟨e.ProcessID, e.Priority, e.BurstDuration, e.ArrivalTime,
   e.totalWait, e.BurstDuration + e.totalWait, e.stoppingTime⟩

def sjfSlice (e : Process) : TimeSlice :=
  ⟨e.ProcessID, e.startingTime, e.stoppingTime⟩

structure SJFResult where
  caller : List Process
  queue  : List Process
  rows   : List Row
  gantt  : List TimeSlice
deriving Repr, DecidableEq

/-- `SJFSchedule` (src/main.go, lines 322-443).  The function sorts the
caller's slice `processes` IN PLACE (line 336 sorts `processes`, not a
copy), so `caller` is the sorted list; all further work happens on the
copy `copyProc`. -/
def SJFSchedule (processes : List Process) : SJFResult :=
  let sorted := sortSJF processes
  let s0 : SJFState := ⟨sorted, [], 0, 0⟩
  let s := (List.range sorted.length).foldl sjfStep s0
  { caller := sorted, queue := s.readyQueue,
    rows := s.readyQueue.map sjfRow, gantt := s.readyQueue.map sjfSlice }

/-! ## RRSchedule (src/main.go, lines 446-542) -/

/-- The quantum computation (lines 461-467): start from the first process's
burst and keep the smaller of the running value and each burst. -/
def minB : Int → List Process → Int
  | a, [] => a
  | a, p :: ps => minB (if a > p.BurstDuration then p.BurstDuration else a) ps

def rrQ : List Process → Int
  | [] => 0
  | p0 :: ps => minB p0.BurstDuration (p0 :: ps)

/-- One iteration of the queue-building loop (lines 470-490), at index `i`
with range value `p` (the loop writes only to `copyQueue[i]`, so the range
copy `x` and `copyQueue[i]` start out equal to the input process; the
`startingTime = serviceTime` write stores 0 and is overwritten later).
If the burst equals the quantum the process is appended once (done, no
multiples); otherwise a quantum-sized first piece is inserted at position
`i` and the remainder piece is appended at the tail. -/
def rrBuildStep (q : Int) (rq : List Process) (i : Nat) (p : Process) : List Process :=
  if p.BurstDuration = q then
    rq ++ [{ p with isDone := true, hasMultiple := false }]
  else
    let c := { p with startingTime := 0, isDone := false, hasMultiple := true,
                      BurstDuration := q }
    let x := { p with hasMultiple := true, isDone := true,
                      BurstDuration := p.BurstDuration - q }
    insertAt rq i c ++ [x]

def rrBuild (q : Int) : List Process → Nat → List Process → List Process
  | rq, _, [] => rq
  | rq, i, p :: ps => rrBuild q (rrBuildStep q rq i p) (i + 1) ps

/-- The schedule/gantt loop (lines 493-532).  `prevStart` is
`readyQueue[i-1].startingTime` after that entry's own iteration updated it
(i.e. the previous slice's start); it is `none` at the first entry, where
the Go guard `i-1 >= 0` fails. -/
def rrEmit : Int → Option Int → List Process → List Row × List TimeSlice
  | _, _, [] => ([], [])
  | serviceTime, prevStart, e :: es =>
    let tw0 := serviceTime - e.ArrivalTime
    let tw := match prevStart with
      | some pSt =>
        if e.hasMultiple then
          (if e.isDone then serviceTime - pSt else serviceTime - e.ArrivalTime)
        else tw0
      | none => tw0
    let stop := serviceTime + e.BurstDuration
    let row : Row := ⟨e.ProcessID, e.Priority, e.BurstDuration, e.ArrivalTime,
                      tw, e.BurstDuration + tw, stop⟩
    let slice : TimeSlice := ⟨e.ProcessID, serviceTime, stop⟩
    let rest := rrEmit stop (some serviceTime) es
    (row :: rest.1, slice :: rest.2)

structure RRResult where
  caller  : List Process
  quantum : Int
  queue   : List Process
  rows    : List Row
  gantt   : List TimeSlice
deriving Repr, DecidableEq

/-- `RRSchedule` (src/main.go, lines 446-542).  On an empty input the Go
function evaluates `processes[0].BurstDuration` (line 461) and panics with
an index-out-of-range runtime error; this is the `none` case.  The input
slice itself is only read (all work happens on the copy `copyQueue`). -/
def RRSchedule (processes : List Process) : Option RRResult :=
  match processes with
  | [] => none
  | p0 :: rest =>
    let q := rrQ (p0 :: rest)
    let rq := rrBuild q [] 0 (p0 :: rest)
    let r := rrEmit 0 none rq
    some { caller := p0 :: rest, quantum := q, queue := rq,
           rows := r.1, gantt := r.2 }

def rrRows (processes : List Process) : List Row :=
  ((RRSchedule processes).map (·.rows)).getD []

def rrGantt (processes : List Process) : List TimeSlice :=
  ((RRSchedule processes).map (·.gantt)).getD []

/-! ## SJFPrioritySchedule (src/main.go, lines 172-319)

The first loop of this function inserts into `copyProc` while ranging over
it (line 220).  With the Go gc allocator the copy made at line 187 has
capacity equal to its length for the element size at hand, so the insert
reallocates and the `range` keeps iterating over the pre-insert array; the
embedding models exactly that: `snap` freezes the pre-insert array at the
first insert, and the range variable `x` is read from `snap`.  (This
allocator detail affects only the internal `copyProc` contents; every
theorem below about this scheduler is proved for all values of that
intermediate state.) -/

def arrivalLess (a b : Process) : Bool := a.ArrivalTime < b.ArrivalTime

def priLessPriority (a b : Process) : Bool := a.Priority < b.Priority

/-- State of the first loop (lines 197-238). `cur` is the current
`copyProc`; `snap` is the frozen range array (none while no insert has
happened, so the range still reads `cur`); `rq` is the (otherwise unused)
`readyQueue`; `brk` records the `break` at line 237. -/
structure PriState where
  cur       : List Process
  snap      : Option (List Process)
  rq        : List Process
  currBurst : Int
  brk       : Bool
deriving Repr

/-- One iteration (index `i`) of the first loop (lines 199-238). -/
def priStep (pq : List Process) (s : PriState) (i : Nat) : PriState :=
  if s.brk then s else
  let x0 := (s.snap.getD s.cur).getD i dP     -- the range variable x
  let temp := s.cur.getD i dP                  -- Temp := copyProc[i]
  -- phase A: lines 203-224
  let sA :=
    if i + 1 < s.cur.length ∧
       (s.cur.getD i dP).ProcessID ≠ (pq.getD i dP).ProcessID then
      let nxt := s.cur.getD (i+1) dP
      let dlt := max 0 (nxt.ArrivalTime - s.currBurst)
      let cur1 := s.cur.set i
        { s.cur.getD i dP with
          stoppingTime := (s.cur.getD i dP).stoppingTime + dlt }
      let cb := s.currBurst + dlt
      let (x1, cur2, rq1) :=
        if cb < temp.BurstDuration then
          let x1 := { x0 with stoppingTime := cb, BurstDuration := cb }
          let c1 := { cur1.getD i dP with
                      BurstDuration := (cur1.getD i dP).BurstDuration - cb }
          (x1, cur1.set i c1, s.rq ++ [c1])
        else (x0, cur1, s.rq)
      if (cur2.getD (i+1) dP).ProcessID = (pq.getD i dP).ProcessID then
        let inserted := (cur2.getD i dP).isDone = false
        let cur3 := if inserted then insertAt cur2 i x1 else cur2
        let snap2 := if inserted ∧ s.snap = none then some cur2 else s.snap
        { s with cur := cur3.set i x1, snap := snap2, rq := rq1, currBurst := cb }
      else
        { s with cur := cur2, rq := rq1, currBurst := cb }
    else s
  -- phase B: lines 227-237
  if i + 2 < sA.cur.length ∧
     (sA.cur.getD (i+1) dP).Priority > (sA.cur.getD (i+2) dP).Priority then
    let c1 := sA.cur.set (i+1)
      { sA.cur.getD (i+1) dP with totalWait := (sA.cur.getD (i+2) dP).BurstDuration }
    let x2 := c1.getD (i+1) dP
    let c2 := c1.set (i+1) (c1.getD (i+2) dP)
    let x3 := if x2.ProcessID = (c2.getD i dP).ProcessID then
                { x2 with isDone := true } else x2
    { sA with cur := c2.set (i+2) x3, brk := true }
  else sA

/-- The `k`-loop of the second region (lines 256-262): the last index
`k ≥ 1` (index 0 is never examined) whose entry has the given process id. -/
def priDownFind (cur : List Process) (pid : Int) : Nat → Option Nat
  | 0 => none
  | m + 1 =>
    if (cur.getD (m+1) dP).ProcessID = pid then some (m+1)
    else priDownFind cur pid m

/-- One iteration of the second region (lines 241-264), for input process
`p`: if the bursts of the matching `copyProc` entries add up to `p`'s
original burst, the last matching entry with index `> 0` is marked done. -/
def priMarkStep (cur : List Process) (p : Process) : List Process :=
  let burstCount :=
    ((cur.filter (fun e => e.ProcessID == p.ProcessID)).map
      (·.BurstDuration)).sum
  if burstCount = p.BurstDuration then
    match priDownFind cur p.ProcessID (cur.length - 1) with
    | some k => cur.set k { cur.getD k dP with isDone := true }
    | none => cur
  else cur

/-- State of the third loop (lines 267-309). -/
structure PriEmitState where
  cur         : List Process
  serviceTime : Int
  waitingTime : Int
  rows        : List Row
  gantt       : List TimeSlice
deriving Repr

/-- One iteration (index `i`) of the third loop (lines 267-309). -/
def priEmitStep (s : PriEmitState) (i : Nat) : PriEmitState :=
  let c := s.cur.getD i dP
  let (c1, w1) :=
    if c.ArrivalTime > 0 then
      ({ c with totalWait := s.serviceTime - c.ArrivalTime },
       s.serviceTime - c.ArrivalTime)
    else (c, s.waitingTime)
  let cur1 := s.cur.set i c1
  let cur2 :=
    if i + 2 < cur1.length ∧ (cur1.getD (i+2) dP).ProcessID = c1.ProcessID then
      cur1.set (i+2)
        { cur1.getD (i+2) dP with totalWait := (cur1.getD (i+1) dP).BurstDuration }
    else cur1
  let c2 := cur2.getD i dP
  let c3 := { c2 with startingTime := s.serviceTime,
                      stoppingTime := s.serviceTime + c2.BurstDuration }
  let row : Row := ⟨c3.ProcessID, c3.Priority, c3.BurstDuration, c3.ArrivalTime,
                    c3.totalWait, c3.BurstDuration + c3.totalWait, c3.stoppingTime⟩
  { cur := cur2.set i c3,
    serviceTime := s.serviceTime + c3.BurstDuration,
    waitingTime := w1,
    rows := s.rows ++ [row],
    gantt := s.gantt ++ [⟨c3.ProcessID, c3.startingTime, c3.stoppingTime⟩] }

structure PriResult where
  caller   : List Process
  copyProc : List Process
  rows     : List Row
  gantt    : List TimeSlice
deriving Repr, DecidableEq

/-- `SJFPrioritySchedule` (src/main.go, lines 172-319).  `copyProc` and
`priorityQueue` are fresh copies (lines 187, 192), so the caller's slice is
only read. -/
def SJFPrioritySchedule (processes : List Process) : PriResult :=
  let copyProc0 := sortStable arrivalLess processes
  let pq := sortStable priLessPriority processes
  let s1 := (List.range copyProc0.length).foldl (priStep pq)
              ⟨copyProc0, none, [], 0, false⟩
  let cur2 := processes.foldl priMarkStep s1.cur
  let s3 := (List.range cur2.length).foldl priEmitStep ⟨cur2, 0, 0, [], []⟩
  { caller := processes, copyProc := s3.cur, rows := s3.rows, gantt := s3.gantt }

/-! ## loadProcesses (src/main.go, lines 590-607) -/

/-- Outcome of running `loadProcesses` on the records of a CSV file. -/
inductive LoadResult where
  | ok         : List Process → LoadResult
  | csvErr     : LoadResult   -- csv.ReadAll returned an error
  | fatalExit  : LoadResult   -- mustStrToInt printed a diagnostic and os.Exit(1)
  | outOfRange : LoadResult   -- rows[i][j] index out of range: runtime panic
deriving Repr, DecidableEq

/-- One decimal digit of a Go integer literal. -/
def charDigit (c : Char) : Option Nat :=
  if c.toNat ≥ 48 ∧ c.toNat ≤ 57 then some (c.toNat - 48) else none

def digitsAcc (acc : Nat) : List Char → Option Nat
  | [] => some acc
  | c :: cs =>
    match charDigit c with
    | some d => digitsAcc (acc * 10 + d) cs
    | none => none

/-- The digits of a base-10 literal: at least one digit, all decimal. -/
def digitsVal : List Char → Option Nat
  | [] => none
  | cs => digitsAcc 0 cs

/-- Go `strconv.ParseInt(s, 10, 64)` wrapped by `mustStrToInt`
(lines 609-617): an optional sign, one or more decimal digits, and the
64-bit range check; `none` models the diagnostic-plus-`os.Exit(1)` path. -/
def mustStrToInt (s : String) : Option Int :=
  let signed : Option Int :=
    match s.data with
    | '+' :: cs => (digitsVal cs).map Int.ofNat
    | '-' :: cs => (digitsVal cs).map (fun n => -(Int.ofNat n))
    | cs => (digitsVal cs).map Int.ofNat
  match signed with
  | some n => if -(2^63) ≤ n ∧ n < 2^63 then some n else none
  | none => none

/-- Go `csv.Reader` with the default `FieldsPerRecord = 0`: the first
record fixes the field count and every later record must match, otherwise
`ReadAll` returns an error. -/
def csvConsistent : List (List String) → Bool
  | [] => true
  | r :: rs => rs.all (fun r2 => r2.length == r.length)

/-- The parse loop of `loadProcesses` (lines 597-604), in Go evaluation
order: `rows[i][0]`, `rows[i][1]`, `rows[i][2]` are indexed (panicking when
out of range), each field is parsed (exiting on failure), and a fourth
field, when the record has exactly four, gives the priority. -/
def parseRows : List (List String) → LoadResult
  | [] => .ok []
  | r :: rs =>
    match r.get? 0 with
    | none => .outOfRange
    | some s0 =>
      match mustStrToInt s0 with
      | none => .fatalExit
      | some pid =>
        match r.get? 1 with
        | none => .outOfRange
        | some s1 =>
          match mustStrToInt s1 with
          | none => .fatalExit
          | some burst =>
            match r.get? 2 with
            | none => .outOfRange
            | some s2 =>
              match mustStrToInt s2 with
              | none => .fatalExit
              | some arrival =>
                let withPrio : Option Int :=
                  if r.length = 4 then mustStrToInt (r.getD 3 "") else some 0
                match withPrio with
                | none => .fatalExit
                | some prio =>
                  match parseRows rs with
                  | .ok ps => .ok (mkP pid arrival burst prio :: ps)
                  | e => e

/-- `loadProcesses` (src/main.go, lines 590-607), taking the records the
CSV reader would produce. -/
def loadProcesses (rows : List (List String)) : LoadResult :=
  if csvConsistent rows then parseRows rows else .csvErr

/-! ## Claim-side definitions

The definitions in this section formalise statements of the specification
for comparison with the embedded code (they are NOT translations of the
source). -/

/-- Duration (`Stop - Start`) of every timeline slice bearing `pid`, in
timeline order. -/
def durationsFor (pid : Int) (g : List TimeSlice) : List Int :=
  (g.filter (fun t => t.PID == pid)).map (fun t => t.Stop - t.Start)

/-- The burst duration that the input descriptor list records for `pid`. -/
def origBurst (ps : List Process) (pid : Int) : Int :=
  ((ps.find? (fun p => p.ProcessID == pid)).map (·.BurstDuration)).getD 0

/-- Sum of the bursts of the first `k` processes of the list. -/
def burstsBefore : List Process → Nat → Int
  | _, 0 => 0
  | [], _ + 1 => 0
  | p :: ps, k + 1 => p.BurstDuration + burstsBefore ps k

/-- Modelled from claim C6's words (spec section 4.1), for comparison with
`FCFSSchedule`: after the stable sort by arrival time, each process starts
at `max(arrival_time, previous completion)` and completes `burst` later,
one slice per process. -/
def FCFSSpecRun (prevCompletion : Int) : List Process → List TimeSlice
  | [] => []
  | p :: ps =>
    let start := max p.ArrivalTime prevCompletion
    let completion := start + p.BurstDuration
    ⟨p.ProcessID, start, completion⟩ :: FCFSSpecRun completion ps

def FCFSSpecGantt (ps : List Process) : List TimeSlice :=
  FCFSSpecRun 0 (sortStable arrivalLess ps)

/-- Claim C5's slice rule, checked on the actual round-robin timeline of an
input: every slice's duration equals `min(quantum, remaining burst of its
process when dequeued)`, the remaining burst being the original burst minus
the durations of that process's earlier slices. -/
def rrClaimSliceRule (ps : List Process) : Bool :=
  let g := rrGantt ps
  let q := rrQ ps
  (List.range g.length).all fun k =>
    let t := g.getD k dT
    let prior :=
      ((g.take k).filter (fun u => u.PID == t.PID)).map (fun u => u.Stop - u.Start)
    (t.Stop - t.Start) == min q (origBurst ps t.PID - prior.sum)

/-- Claim C8's row rule: a table row's turnaround equals the ORIGINAL burst
of its process (as recorded in the input list) plus the row's wait. -/
def rowMatchesOriginal (ps : List Process) (r : Row) : Bool :=
  r.turnaround == origBurst ps r.pid + r.wait

/-- The row rule the code actually maintains: a row's turnaround equals the
row's own displayed burst plus the row's displayed wait. -/
def rowOK (r : Row) : Bool :=
  r.turnaround == r.burst + r.wait

/-- The filter predicate selecting the working-queue entries of one pid. -/
def pidEq (pid : Int) (e : Process) : Bool := e.ProcessID == pid

/-- The pieces that the round-robin queue-building loop creates for one
input process: a single done piece when the burst equals the quantum,
otherwise a quantum-sized first piece and a remainder piece. -/
def rrPieces (q : Int) (p : Process) : List Process :=
  if p.BurstDuration = q then [{ p with isDone := true, hasMultiple := false }]
  else [{ p with startingTime := 0, isDone := false, hasMultiple := true,
                 BurstDuration := q },
        { p with hasMultiple := true, isDone := true,
                 BurstDuration := p.BurstDuration - q }]

/-! ## Concrete inputs used by the claims -/

/-- The SJF example workload of the specification (section 8):
`[(1,6,0),(2,2,1),(3,8,2),(4,3,3)]` as `(id, burst, arrival)`. -/
def sjfExample : List Process := [mkP 1 0 6 0, mkP 2 1 2 0, mkP 3 2 8 0, mkP 4 3 3 0]

/-- Two processes whose arrival order differs from the input order. -/
def unsortedPair : List Process := [mkP 1 1 2 0, mkP 2 0 1 0]

/-- A single process arriving at time 5: the CPU should idle until then. -/
def lateArrival : List Process := [mkP 1 5 1 0]

/-- A late-arriving process after an early one, input not in arrival order. -/
def fcfsCexInput : List Process := [mkP 1 5 1 0, mkP 2 0 1 0]

/-- Quantum 1, second process needs five units: its remainder slice has
duration 4 > quantum. -/
def rrCexInput : List Process := [mkP 1 0 1 0, mkP 2 0 5 0]

/-- Quantum 1, second process needs three units: its first-piece row shows
burst 1, not the original 3. -/
def rrRowCexInput : List Process := [mkP 1 0 1 0, mkP 2 0 3 0]

/-! ## Supporting lemmas -/

theorem insertLess_perm (less : α → α → Bool) (a : α) :
    ∀ l : List α, (insertLess less a l).Perm (a :: l) := by
  intro l
  induction l with
  | nil => simp [insertLess]
  | cons b bs ih =>
    by_cases h : less b a = true
    · simp only [insertLess, h, if_true]
      exact (ih.cons b).trans (List.Perm.swap a b bs)
    · simp only [insertLess, Bool.not_eq_true] at h
      simp [insertLess, h]

theorem sortStable_perm (less : α → α → Bool) :
    ∀ l : List α, (sortStable less l).Perm l := by
  intro l
  induction l with
  | nil => simp [sortStable]
  | cons a as ih =>
    exact (insertLess_perm less a (sortStable less as)).trans (ih.cons a)

theorem mem_insertLess {less : α → α → Bool} {a x : α} {l : List α}
    (h : x ∈ insertLess less a l) : x = a ∨ x ∈ l := by
  have := (insertLess_perm less a l).mem_iff.mp h
  simpa using this

theorem sjfLess_false_le {a b : Process} (h : sjfLess b a = false) :
    a.ArrivalTime ≤ b.ArrivalTime := by
  unfold sjfLess at h
  by_cases he : b.ArrivalTime = a.ArrivalTime
  · omega
  · simp only [he, if_false, decide_eq_false_iff_not, not_lt] at h
    exact h

theorem sjfLess_true_le {a b : Process} (h : sjfLess a b = true) :
    a.ArrivalTime ≤ b.ArrivalTime := by
  unfold sjfLess at h
  by_cases he : a.ArrivalTime = b.ArrivalTime
  · omega
  · simp only [he, if_false, decide_eq_true_eq] at h
    omega

theorem insertLess_sorted_arrival (p : Process) :
    ∀ l : List Process,
    l.Pairwise (fun a b => a.ArrivalTime ≤ b.ArrivalTime) →
    (insertLess sjfLess p l).Pairwise (fun a b => a.ArrivalTime ≤ b.ArrivalTime) := by
  intro l
  induction l with
  | nil => intro _; simp [insertLess]
  | cons b bs ih =>
    intro hl
    rw [List.pairwise_cons] at hl
    by_cases h : sjfLess b p = true
    · simp only [insertLess, h, if_true]
      rw [List.pairwise_cons]
      refine ⟨?_, ih hl.2⟩
      intro x hx
      rcases mem_insertLess hx with rfl | hx2
      · exact sjfLess_true_le h
      · exact hl.1 x hx2
    · simp only [Bool.not_eq_true] at h
      simp only [insertLess, h, Bool.false_eq_true, if_false]
      rw [List.pairwise_cons]
      refine ⟨?_, List.pairwise_cons.mpr hl⟩
      intro x hx
      rcases List.mem_cons.mp hx with rfl | hx2
      · exact sjfLess_false_le h
      · exact le_trans (sjfLess_false_le h) (hl.1 x hx2)

theorem sortSJF_sorted (l : List Process) :
    (sortSJF l).Pairwise (fun a b => a.ArrivalTime ≤ b.ArrivalTime) := by
  induction l with
  | nil => simp [sortSJF, sortStable]
  | cons a as ih => exact insertLess_sorted_arrival a _ ih

theorem insertAt_cons (b : α) (bs : List α) (k : Nat) (a : α) :
    insertAt (b :: bs) (k + 1) a = b :: insertAt bs k a := by
  simp [insertAt]

theorem insertAt_nil (k : Nat) (a : α) : insertAt ([] : List α) k a = [a] := by
  simp [insertAt]

theorem insertAt_zero (l : List α) (a : α) : insertAt l 0 a = a :: l := by
  simp [insertAt]

theorem filter_insertAt_neg (f : α → Bool) (a : α) (h : f a = false) :
    ∀ (l : List α) (k : Nat), (insertAt l k a).filter f = l.filter f := by
  intro l
  induction l with
  | nil => intro k; simp [insertAt_nil, h]
  | cons b bs ih =>
    intro k
    cases k with
    | zero => simp [insertAt_zero, h]
    | succ k =>
      rw [insertAt_cons]
      by_cases hb : f b = true
      · simp [List.filter_cons, hb, ih k]
      · simp only [Bool.not_eq_true] at hb
        simp [List.filter_cons, hb, ih k]

theorem filter_insertAt_pos (f : α → Bool) (a : α) (h : f a = true) :
    ∀ (l : List α) (k : Nat), l.filter f = [] →
    (insertAt l k a).filter f = [a] := by
  intro l
  induction l with
  | nil => intro k _; simp [insertAt_nil, h]
  | cons b bs ih =>
    intro k hl
    have hb : f b = false := by
      by_contra hb
      simp only [Bool.not_eq_false] at hb
      simp [List.filter_cons, hb] at hl
    have hbs : bs.filter f = [] := by
      simpa [List.filter_cons, hb] using hl
    cases k with
    | zero => simp [insertAt_zero, List.filter_cons, h, hb, hbs]
    | succ k =>
      rw [insertAt_cons]
      simp [List.filter_cons, hb, ih k hbs]

theorem rrBuildStep_filter_ne {p : Process} {pid : Int}
    (q : Int) (rq : List Process) (i : Nat) (h : p.ProcessID ≠ pid) :
    (rrBuildStep q rq i p).filter (pidEq pid) = rq.filter (pidEq pid) := by
  have hbeq : (p.ProcessID == pid) = false := by simpa using h
  unfold rrBuildStep
  by_cases hq : p.BurstDuration = q
  · rw [if_pos hq]
    simp [List.filter_append, List.filter_cons, pidEq, hbeq]
  · rw [if_neg hq]
    rw [List.filter_append,
        filter_insertAt_neg (pidEq pid) _
          (show pidEq pid { p with startingTime := 0, isDone := false,
                                   hasMultiple := true, BurstDuration := q } = false
           from by simp [pidEq, hbeq])]
    simp [List.filter_cons, pidEq, hbeq]

theorem rrBuild_filter_ne {pid : Int} (q : Int) :
    ∀ (ps : List Process) (rq : List Process) (i : Nat),
    (∀ p ∈ ps, p.ProcessID ≠ pid) →
    (rrBuild q rq i ps).filter (pidEq pid) = rq.filter (pidEq pid) := by
  intro ps
  induction ps with
  | nil => intro rq i _; rfl
  | cons p ps ih =>
    intro rq i hps
    rw [show rrBuild q rq i (p :: ps) = rrBuild q (rrBuildStep q rq i p) (i+1) ps from rfl]
    rw [ih _ (i+1) (fun a ha => hps a (List.mem_cons_of_mem p ha))]
    exact rrBuildStep_filter_ne q rq i (hps p (List.mem_cons_self p ps))

theorem rrBuildStep_filter_eq (q : Int) (rq : List Process) (i : Nat)
    (p : Process) (h0 : rq.filter (pidEq p.ProcessID) = []) :
    (rrBuildStep q rq i p).filter (pidEq p.ProcessID) = rrPieces q p := by
  unfold rrBuildStep rrPieces
  by_cases hq : p.BurstDuration = q
  · rw [if_pos hq, if_pos hq]
    simp [List.filter_append, List.filter_cons, pidEq, h0]
  · rw [if_neg hq, if_neg hq]
    rw [List.filter_append,
        filter_insertAt_pos (pidEq p.ProcessID) _
          (show pidEq p.ProcessID { p with startingTime := 0, isDone := false,
                                           hasMultiple := true, BurstDuration := q } = true
           from by simp [pidEq]) _ _ h0]
    simp [List.filter_cons, pidEq]

theorem rrBuild_filter_eq (q : Int) (p : Process) :
    ∀ (pre : List Process) (post : List Process) (rq : List Process) (i : Nat),
    (∀ a ∈ pre, a.ProcessID ≠ p.ProcessID) →
    (∀ b ∈ post, b.ProcessID ≠ p.ProcessID) →
    rq.filter (pidEq p.ProcessID) = [] →
    (rrBuild q rq i (pre ++ p :: post)).filter (pidEq p.ProcessID) = rrPieces q p := by
  intro pre
  induction pre with
  | nil =>
    intro post rq i _ hpost h0
    rw [List.nil_append,
        show rrBuild q rq i (p :: post) = rrBuild q (rrBuildStep q rq i p) (i+1) post from rfl]
    rw [rrBuild_filter_ne q post _ (i+1) hpost]
    exact rrBuildStep_filter_eq q rq i p h0
  | cons a pre ih =>
    intro post rq i hpre hpost h0
    rw [List.cons_append,
        show rrBuild q rq i (a :: (pre ++ p :: post)) =
        rrBuild q (rrBuildStep q rq i a) (i+1) (pre ++ p :: post) from rfl]
    refine ih post _ (i+1) (fun x hx => hpre x (List.mem_cons_of_mem a hx)) hpost ?_
    rw [rrBuildStep_filter_ne q rq i (hpre a (List.mem_cons_self a pre))]
    exact h0

theorem rrEmit_durations (pid : Int) :
    ∀ (es : List Process) (serviceTime : Int) (prevStart : Option Int),
    durationsFor pid (rrEmit serviceTime prevStart es).2 =
      (es.filter (pidEq pid)).map (·.BurstDuration) := by
  intro es
  induction es with
  | nil => intro _ _; rfl
  | cons e es ih =>
    intro serviceTime prevStart
    unfold rrEmit durationsFor
    by_cases he : e.ProcessID == pid
    · simp only [List.filter_cons, pidEq, he, if_true]
      have := ih (serviceTime + e.BurstDuration) (some serviceTime)
      unfold durationsFor at this
      simp [List.filter_cons, he, this, pidEq]
    · simp only [Bool.not_eq_true] at he
      have := ih (serviceTime + e.BurstDuration) (some serviceTime)
      unfold durationsFor at this
      simp [List.filter_cons, he, this, pidEq]

theorem minB_le : ∀ (l : List Process) (a : Int),
    minB a l ≤ a ∧ ∀ p ∈ l, minB a l ≤ p.BurstDuration := by
  intro l
  induction l with
  | nil => intro a; exact ⟨le_refl a, by simp⟩
  | cons p ps ih =>
    intro a
    set a2 := if a > p.BurstDuration then p.BurstDuration else a with ha2
    have h1 : a2 ≤ a := by rw [ha2]; split <;> omega
    have h2 : a2 ≤ p.BurstDuration := by rw [ha2]; split <;> omega
    have := ih a2
    refine ⟨le_trans this.1 h1, ?_⟩
    intro x hx
    rcases List.mem_cons.mp hx with rfl | hx2
    · exact le_trans this.1 h2
    · exact this.2 x hx2

theorem minB_attained : ∀ (l : List Process) (a : Int),
    minB a l = a ∨ minB a l ∈ l.map (·.BurstDuration) := by
  intro l
  induction l with
  | nil => intro a; exact Or.inl rfl
  | cons p ps ih =>
    intro a
    rcases ih (if a > p.BurstDuration then p.BurstDuration else a) with h | h
    · rw [show minB a (p :: ps) = minB (if a > p.BurstDuration then p.BurstDuration else a) ps from rfl, h]
      split
      · exact Or.inr (by simp)
      · exact Or.inl rfl
    · exact Or.inr (List.mem_cons_of_mem _ (by simpa using h))

theorem FCFSrun_length : ∀ (ps : List Process) (serviceTime waitingTime : Int),
    (FCFSrun serviceTime waitingTime ps).1.length = ps.length ∧
    (FCFSrun serviceTime waitingTime ps).2.length = ps.length := by
  intro ps
  induction ps with
  | nil => intro _ _; exact ⟨rfl, rfl⟩
  | cons p ps ih =>
    intro serviceTime waitingTime
    have := ih (serviceTime + p.BurstDuration)
      (if p.ArrivalTime > 0 then serviceTime - p.ArrivalTime else waitingTime)
    simp only [FCFSrun, List.length_cons]
    omega

theorem burstsBefore_cons (p : Process) (ps : List Process) (k : Nat) :
    burstsBefore (p :: ps) (k + 1) = p.BurstDuration + burstsBefore ps k := rfl

theorem FCFSrun_index :
    ∀ (ps : List Process) (serviceTime waitingTime : Int) (i : Nat),
    i < ps.length → 0 < (ps.getD i dP).ArrivalTime →
    ((FCFSrun serviceTime waitingTime ps).2.getD i dT).PID
        = (ps.getD i dP).ProcessID ∧
    ((FCFSrun serviceTime waitingTime ps).2.getD i dT).Stop
        = serviceTime + burstsBefore ps (i + 1) ∧
    ((FCFSrun serviceTime waitingTime ps).2.getD i dT).Start
        = serviceTime + burstsBefore ps i ∧
    ((FCFSrun serviceTime waitingTime ps).1.getD i dR).wait
        = serviceTime + burstsBefore ps i - (ps.getD i dP).ArrivalTime := by
  intro ps
  induction ps with
  | nil => intro _ _ i hi _; simp at hi
  | cons p ps ih =>
    intro serviceTime waitingTime i hi ha
    have hb0 : burstsBefore ps 0 = 0 := by cases ps <;> rfl
    cases i with
    | zero =>
      simp only [List.getD_cons_zero] at ha
      have hwt : (if p.ArrivalTime > 0 then serviceTime - p.ArrivalTime else waitingTime)
          = serviceTime - p.ArrivalTime := if_pos ha
      refine ⟨rfl, ?_, ?_, ?_⟩
      · show serviceTime + p.BurstDuration = serviceTime + burstsBefore (p :: ps) 1
        rw [burstsBefore_cons, hb0]
        ring
      · show (if p.ArrivalTime > 0 then serviceTime - p.ArrivalTime else waitingTime)
            + p.ArrivalTime = serviceTime + burstsBefore (p :: ps) 0
        rw [hwt, show burstsBefore (p :: ps) 0 = 0 from rfl]
        ring
      · show (if p.ArrivalTime > 0 then serviceTime - p.ArrivalTime else waitingTime)
            = serviceTime + burstsBefore (p :: ps) 0 - p.ArrivalTime
        rw [hwt, show burstsBefore (p :: ps) 0 = 0 from rfl]
        ring
    | succ i =>
      simp only [List.getD_cons_succ] at ha ⊢
      simp only [List.length_cons, Nat.succ_lt_succ_iff] at hi
      have := ih (serviceTime + p.BurstDuration)
        (if p.ArrivalTime > 0 then serviceTime - p.ArrivalTime else waitingTime) i hi ha
      simp only [FCFSrun, List.getD_cons_succ, burstsBefore_cons]
      refine ⟨this.1, ?_, ?_, ?_⟩
      · rw [this.2.1]; omega
      · rw [this.2.2.1]; omega
      · rw [this.2.2.2]; omega

theorem FCFSrun_rows_ok : ∀ (ps : List Process) (serviceTime waitingTime : Int),
    ((FCFSrun serviceTime waitingTime ps).1.all rowOK) = true := by
  intro ps
  induction ps with
  | nil => intro _ _; rfl
  | cons p ps ih =>
    intro serviceTime waitingTime
    simp only [FCFSrun, List.all_cons, Bool.and_eq_true]
    exact ⟨by simp [rowOK], ih _ _⟩

theorem rrEmit_rows_ok : ∀ (es : List Process) (serviceTime : Int) (prevStart : Option Int),
    ((rrEmit serviceTime prevStart es).1.all rowOK) = true := by
  intro es
  induction es with
  | nil => intro _ _; rfl
  | cons e es ih =>
    intro serviceTime prevStart
    simp only [rrEmit, List.all_cons, Bool.and_eq_true]
    exact ⟨by simp [rowOK], ih _ _⟩

theorem sjfRow_ok (e : Process) : rowOK (sjfRow e) = true := by
  simp [rowOK, sjfRow]

theorem priEmit_rows_ok :
    ∀ (l : List Nat) (s : PriEmitState), (s.rows.all rowOK) = true →
    (((l.foldl priEmitStep s).rows).all rowOK) = true := by
  intro l
  induction l with
  | nil => intro s hs; exact hs
  | cons i l ih =>
    intro s hs
    refine ih (priEmitStep s i) ?_
    show ((priEmitStep s i).rows.all rowOK) = true
    simp only [priEmitStep]
    rw [List.all_append]
    simp [hs, rowOK]

/-! ## Claims -/

/-- Claim C1: the spec demands that an empty process list be a defined,
non-crashing condition with the aggregates reported as "undefined".  The
code violates this: `RRSchedule` indexes `processes[0]` (line 461) before
any guard, so on the empty list it panics with an index-out-of-range
runtime error (and `FCFSSchedule` divides 0.0/0.0, printing NaN averages
rather than an explicit "undefined").  This theorem evaluates the
round-robin scheduler at the failing input: the panic case is reached. -/
theorem claimC1_rr_empty_input_panics : RRSchedule [] = none := rfl

/-- Claim C2 counterexample: `SJFSchedule` sorts the caller's slice in
place (line 336 sorts `processes` itself, not the copy), so on an input
that is not already in arrival order the caller's list is reordered. -/
theorem claimC2_cex : (SJFSchedule unsortedPair).caller ≠ unsortedPair := by
  decide

/-- Claim C2 amended: `FCFSSchedule`, `SJFPrioritySchedule` and
`RRSchedule` leave the caller's list unchanged (they only read it or work
on fresh copies), but `SJFSchedule` stably sorts the caller's list in
place by arrival time (ties by burst), so that mutation is visible to
schedulers run after it. -/
theorem claimC2_amended (ps : List Process) :
    (FCFSSchedule ps).caller = ps ∧
    (SJFPrioritySchedule ps).caller = ps ∧
    (RRSchedule ps).elim True (fun r => r.caller = ps) ∧
    (SJFSchedule ps).caller = sortSJF ps ∧
    ((SJFSchedule ps).caller).Perm ps ∧
    ((SJFSchedule ps).caller).Pairwise (fun a b => a.ArrivalTime ≤ b.ArrivalTime) := by
  refine ⟨rfl, rfl, ?_, rfl, ?_, ?_⟩
  · cases ps with
    | nil => trivial
    | cons p0 rest => exact rfl
  · exact sortStable_perm sjfLess ps
  · exact sortSJF_sorted ps

/-- Claim C3: the claim says SJF runs each arrived process with minimal
burst to completion and emits exactly one slice per input process.  On the
spec's own SJF workload the code emits NO slice for process 2 and TWO
slices for process 3, so the claim fails on the code. -/
theorem claimC3_sjf_not_one_slice_each :
    ((SJFSchedule sjfExample).gantt.filter (fun t => t.PID == 2)).length = 0 ∧
    ((SJFSchedule sjfExample).gantt.filter (fun t => t.PID == 3)).length = 2 := by
  decide

/-- Claim C4: on `[(1,6,0),(2,2,1),(3,8,2),(4,3,3)]` the claim (and spec
section 8) expects slices (1: 0-6), (2: 6-8), (4: 8-11), (3: 11-19).  The
code instead produces (1: 0-6), (3: 6-6), (4: 6-12), (3: 9-17): process 2
is never scheduled, process 3 gets a zero-length slice and a late slice,
and slices (4: 6-12) and (3: 9-17) even overlap. -/
theorem claimC4_sjf_example_timeline :
    (SJFSchedule sjfExample).gantt =
      [⟨1, 0, 6⟩, ⟨3, 6, 6⟩, ⟨4, 6, 12⟩, ⟨3, 9, 17⟩] ∧
    (SJFSchedule sjfExample).gantt ≠
      [⟨1, 0, 6⟩, ⟨2, 6, 8⟩, ⟨4, 8, 11⟩, ⟨3, 11, 19⟩] := by
  decide

/-- Claim C5 counterexample: with quantum 1 (= min burst) and a process of
burst 5, the code emits for that process one slice of duration 1 and then a
single remainder slice of duration 4, so the slice of duration 4 is NOT
`min(quantum, remaining burst when dequeued) = min(1, 4) = 1`; the claim's
slice rule fails at this input. -/
theorem claimC5_cex : rrClaimSliceRule rrCexInput = false := by decide

/-- Claim C5 amended: the round-robin quantum does equal the minimum burst
duration over the input set, but the code does not cycle in quantum steps:
for each process (with distinct ids) the timeline contains exactly one
slice of duration equal to the quantum and then, if the burst exceeds the
quantum, one final remainder slice of duration `burst - quantum` (which may
exceed the quantum).  In particular, no slice other than a process's final
remainder slice exceeds the quantum. -/
theorem claimC5_amended (ps : List Process) (p : Process)
    (hne : ps ≠ [])
    (hnd : ps.Pairwise (fun a b => a.ProcessID ≠ b.ProcessID))
    (hp : p ∈ ps) :
    (ps.all (fun a => decide (rrQ ps ≤ a.BurstDuration))) = true ∧
    rrQ ps ∈ ps.map (·.BurstDuration) ∧
    durationsFor p.ProcessID (rrGantt ps) =
      (if p.BurstDuration = rrQ ps then [rrQ ps]
       else [rrQ ps, p.BurstDuration - rrQ ps]) := by
  cases ps with
  | nil => exact absurd rfl hne
  | cons p0 rest =>
    refine ⟨?_, ?_, ?_⟩
    · rw [List.all_eq_true]
      intro a ha
      exact decide_eq_true ((minB_le (p0 :: rest) p0.BurstDuration).2 a ha)
    · rcases minB_attained (p0 :: rest) p0.BurstDuration with h | h
      · rw [show rrQ (p0 :: rest) = minB p0.BurstDuration (p0 :: rest) from rfl, h]
        exact List.mem_map_of_mem _ (List.mem_cons_self p0 rest)
      · exact h
    · rw [show rrGantt (p0 :: rest)
            = (rrEmit 0 none (rrBuild (rrQ (p0 :: rest)) [] 0 (p0 :: rest))).2 from rfl,
          rrEmit_durations]
      obtain ⟨pre, post, hps⟩ := List.append_of_mem hp
      rw [hps] at hnd
      set q := rrQ (p0 :: rest) with hqdef
      rw [hps]
      have hsplit := List.pairwise_append.mp hnd
      have hpre : ∀ a ∈ pre, a.ProcessID ≠ p.ProcessID :=
        fun a ha => hsplit.2.2 a ha p (List.mem_cons_self p post)
      have hpost : ∀ b ∈ post, b.ProcessID ≠ p.ProcessID := by
        intro b hb
        exact (List.pairwise_cons.mp hsplit.2.1).1 b hb |>.symm
      rw [rrBuild_filter_eq q p pre post [] 0 hpre hpost rfl]
      by_cases hq : p.BurstDuration = q
      · rw [if_pos hq]
        simp [rrPieces, hq]
      · rw [if_neg hq]
        simp [rrPieces, hq]

/-- Witness for claim C5's amended theorem at the two-process workload
with bursts 1 and 5: quantum 1, process 2 runs as a quantum slice and a
final remainder slice of duration 4. -/
theorem claimC5_witness :
    (rrCexInput.all (fun a => decide (rrQ rrCexInput ≤ a.BurstDuration))) = true ∧
    rrQ rrCexInput ∈ rrCexInput.map (·.BurstDuration) ∧
    durationsFor 2 (rrGantt rrCexInput) = [1, 4] :=
  claimC5_amended rrCexInput (mkP 2 0 5 0) (by decide) (by decide) (by decide)

/-- Claim C6 counterexample: on an input that is not in arrival order and
whose first process arrives after time 0, the code's FCFS timeline differs
from the claim's (sort stably by arrival, start at
`max(arrival, previous completion)`): the code produces
`[(1,0,1),(2,-5,2)]` while the claim requires `[(2,0,1),(1,5,6)]`. -/
theorem claimC6_cex :
    (FCFSSchedule fcfsCexInput).gantt ≠ FCFSSpecGantt fcfsCexInput := by
  decide

/-- Claim C6 amended: `FCFSSchedule` does not sort and does not take a max
with the arrival time.  It emits one slice per process in input order; the
i-th slice always ends at the sum of the first i+1 bursts, and whenever the
i-th process has `arrival_time > 0` its slice starts at the sum of the
first i bursts (the previous completion, even if the process has not
arrived yet) and its table wait is that sum minus its arrival time, which
can be negative.  (A non-first process with `arrival_time = 0` instead
reuses the stale wait of the previous iteration.) -/
theorem claimC6_amended (ps : List Process) (i : Nat)
    (hi : i < ps.length)
    (ha : 0 < (ps.getD i dP).ArrivalTime) :
    (FCFSSchedule ps).gantt.length = ps.length ∧
    ((FCFSSchedule ps).gantt.getD i dT).PID = (ps.getD i dP).ProcessID ∧
    ((FCFSSchedule ps).gantt.getD i dT).Stop = burstsBefore ps (i + 1) ∧
    ((FCFSSchedule ps).gantt.getD i dT).Start = burstsBefore ps i ∧
    ((FCFSSchedule ps).rows.getD i dR).wait
      = burstsBefore ps i - (ps.getD i dP).ArrivalTime := by
  have hlen := (FCFSrun_length ps 0 0).2
  have h := FCFSrun_index ps 0 0 i hi ha
  refine ⟨hlen, h.1, ?_, ?_, ?_⟩
  · show ((FCFSrun 0 0 ps).2.getD i dT).Stop = burstsBefore ps (i + 1)
    rw [h.2.1]
    ring
  · show ((FCFSrun 0 0 ps).2.getD i dT).Start = burstsBefore ps i
    rw [h.2.2.1]
    ring
  · show ((FCFSrun 0 0 ps).1.getD i dR).wait
        = burstsBefore ps i - (ps.getD i dP).ArrivalTime
    rw [h.2.2.2]
    ring

/-- Witness for claim C6's amended theorem at `fcfsCexInput`, index 0: the
first process has arrival 5 and burst 1; its slice is (0, 1) and its table
wait is -5. -/
theorem claimC6_witness :
    (FCFSSchedule fcfsCexInput).gantt.length = 2 ∧
    ((FCFSSchedule fcfsCexInput).gantt.getD 0 dT).PID = 1 ∧
    ((FCFSSchedule fcfsCexInput).gantt.getD 0 dT).Stop = 1 ∧
    ((FCFSSchedule fcfsCexInput).gantt.getD 0 dT).Start = 0 ∧
    ((FCFSSchedule fcfsCexInput).rows.getD 0 dR).wait = -5 :=
  claimC6_amended fcfsCexInput 0 (by decide) (by decide)

/-- Claim C7: the claim (spec invariant) says that for every scheduler the
slice durations of a process sum to its original burst.  On the spec's SJF
workload the code gives process 4 (burst 3) a total slice time of 6 and
process 2 (burst 2) a total slice time of 0, so the invariant fails on the
code. -/
theorem claimC7_sjf_slice_sum_mismatch :
    (durationsFor 4 (SJFSchedule sjfExample).gantt).sum = 6 ∧
    origBurst sjfExample 4 = 3 ∧
    (durationsFor 2 (SJFSchedule sjfExample).gantt).sum = 0 ∧
    origBurst sjfExample 2 = 2 := by
  decide

/-- Claim C8 counterexample: under round-robin with quantum 1, the first
piece of the burst-3 process yields the row (burst 1, wait 1,
turnaround 2), but the claim requires turnaround = original burst + wait
= 3 + 1 = 4, so the claim's row rule fails at this input. -/
theorem claimC8_cex :
    ((rrRows rrRowCexInput).all (rowMatchesOriginal rrRowCexInput)) = false := by
  decide

/-- Claim C8 amended: in every scheduler each table row satisfies
`turnaround = burst + wait` where `burst` and `wait` are the values
DISPLAYED IN THAT ROW; under splitting (SJF, round-robin, priority) the
displayed burst is the piece's burst, not necessarily the process's
original burst from the input descriptor. -/
theorem claimC8_amended (ps : List Process) :
    ((FCFSSchedule ps).rows.all rowOK) = true ∧
    ((SJFSchedule ps).rows.all rowOK) = true ∧
    ((SJFPrioritySchedule ps).rows.all rowOK) = true ∧
    ((rrRows ps).all rowOK) = true := by
  refine ⟨FCFSrun_rows_ok ps 0 0, ?_, ?_, ?_⟩
  · rw [List.all_eq_true]
    intro x hx
    obtain ⟨e, _, rfl⟩ := List.mem_map.mp
      (show x ∈ (((List.range (sortSJF ps).length).foldl sjfStep
            ⟨sortSJF ps, [], 0, 0⟩).readyQueue.map sjfRow) from hx)
    exact sjfRow_ok e
  · exact priEmit_rows_ok _ _ rfl
  · cases ps with
    | nil => rfl
    | cons p0 rest => exact rrEmit_rows_ok _ 0 none

/-- Claim C9: the claim (spec data-model invariant) says every metrics
record has `wait_time ≥ 0`.  A single process with arrival 5 makes FCFS
report wait -5 (the code never clamps against arrival), so the invariant
fails on the code. -/
theorem claimC9_fcfs_negative_wait :
    (FCFSSchedule lateArrival).rows.map (·.wait) = [-5] ∧ (-5 : Int) < 0 := by
  decide

/-- Claim C10: for well-formed CSV input whose records all have the same
number of fields `n < 3` (with integer-parsable fields, so the
`mustStrToInt` exit path is not taken first), `loadProcesses` reaches the
out-of-range indexing of `rows[i][1]` or `rows[i][2]` (or `rows[i][0]` for
empty records) and panics, bypassing the documented format-error path of a
diagnostic message and non-zero exit. -/
theorem claimC10_load_short_records (rows : List (List String)) (n : Nat)
    (hne : rows ≠ [])
    (hlen : ∀ r ∈ rows, r.length = n)
    (hn : n < 3)
    (hall : ∀ r ∈ rows, ∀ s ∈ r, (mustStrToInt s).isSome = true) :
    loadProcesses rows = .outOfRange := by
  cases rows with
  | nil => exact absurd rfl hne
  | cons r rs =>
    have hcsv : csvConsistent (r :: rs) = true := by
      show (rs.all fun r2 => r2.length == r.length) = true
      rw [List.all_eq_true]
      intro r2 hr2
      have h1 := hlen r (List.mem_cons_self r rs)
      have h2 := hlen r2 (List.mem_cons_of_mem r hr2)
      simp [h1, h2]
    rw [show loadProcesses (r :: rs)
        = (if csvConsistent (r :: rs) = true then parseRows (r :: rs)
           else .csvErr) from rfl,
        if_pos hcsv]
    have hr := hlen r (List.mem_cons_self r rs)
    match r, hr with
    | [], _ => rfl
    | [s0], _ =>
      have h0 := hall [s0] (List.mem_cons_self _ rs) s0 (List.mem_cons_self s0 [])
      obtain ⟨v0, hv0⟩ := Option.isSome_iff_exists.mp h0
      simp [parseRows, hv0]
    | [s0, s1], _ =>
      have h0 := hall [s0, s1] (List.mem_cons_self _ rs) s0 (by simp)
      have h1 := hall [s0, s1] (List.mem_cons_self _ rs) s1 (by simp)
      obtain ⟨v0, hv0⟩ := Option.isSome_iff_exists.mp h0
      obtain ⟨v1, hv1⟩ := Option.isSome_iff_exists.mp h1
      simp [parseRows, hv0, hv1]
    | s0 :: s1 :: s2 :: rest2, hr3 => simp at hr3; omega

/-- Witness for claim C10 at the single two-field record `1,2`: the loader
reaches `rows[0][2]` and panics. -/
theorem claimC10_witness : loadProcesses [["1", "2"]] = .outOfRange :=
  claimC10_load_short_records [["1", "2"]] 2 (by decide) (by decide) (by decide)
    (by decide)
